import Mathlib

/-!
Shallow embedding of the memory subsystem of the `apeiron` repository
(`src/core/wake_phase.py`, `src/core/sleep_phase.py`) and proofs about it.

Modelling conventions:
* A filesystem path is a list of segments (`List String`); the last segment is
  the file's base name.  Python's `file_path.split(os.sep)` corresponds to the
  segment list itself.
* File contents are `List Char` (Python strings are sequences of characters);
  `len(content)` is `List.length` and `content.strip()`-emptiness is
  `List.all Char.isWhitespace`.
* A Chroma collection is modelled as a map from document id to the stored
  document with its metadata (`κ → Option ν`); `upsert` is insert-or-replace
  keyed by id (last write wins), exactly the semantics the code relies on.
* Unreadable files (the `except` around `open`) are `Option` contents:
  `none` means the read raised.
* External collaborators (the generative model, the embedding backend that
  ranks vector-query results, wall-clock timestamps, printing) are treated as
  oracles: their outputs are parameters of the corresponding operations, and
  their effects on the world are out of scope, matching the spec's "external
  interfaces" section.
-/

namespace Apeiron

/-- Role-tagged message, as used for the ollama message sequences, the
conversation history and (with the wall-clock timestamp abstracted away)
entries of the interaction log `session_logs.jsonl`. -/
structure Msg where
  role : String
  content : String
deriving DecidableEq

/-- File contents as a sequence of characters. -/
abbrev Content := List Char

/-! ## Configuration constants (`wake_phase.py` lines 22-43) -/

/-- `WATCH_EXTENSIONS` of `wake_phase.py`. -/
def WATCH_EXTENSIONS_wake : List String :=
  [".py", ".md", ".txt", ".js", ".html", ".css", ".json", ".yaml", ".yml", ".toml"]

/-- `IGNORE_DIRS` of `wake_phase.py`. -/
def IGNORE_DIRS_wake : List String :=
  [".git", "__pycache__", "venv", "node_modules", ".idea", ".vscode", "memory_db",
   "apeiron_core"]

/-! ## Configuration constants (`sleep_phase.py` lines 13-23) -/

/-- `WATCH_EXTENSIONS` of `sleep_phase.py`. -/
def WATCH_EXTENSIONS_sleep : List String :=
  [".py", ".md", ".txt", ".js", ".html", ".css", ".json"]

/-- `IGNORE_DIRS` of `sleep_phase.py`. -/
def IGNORE_DIRS_sleep : List String :=
  [".git", "__pycache__", "venv", "node_modules", ".idea", ".vscode", "memory_db",
   "apeiron_core"]

/-! ## Extension splitting (`os.path.splitext`) -/

/-- Suffix of a character list starting at its last `'.'`, if any. -/
def extAfterLastDot : List Char → Option (List Char)
  | [] => none
  | c :: t =>
    match extAfterLastDot t with
    | some e => some e
    | none => if c = '.' then some (c :: t) else none

/-- Extension of a base name following CPython's `os.path.splitext`: the
suffix starting at the last dot, except that a name whose characters before
that dot are all dots (e.g. `".py"`) has no extension. -/
def splitextExt (b : String) : String :=
  match extAfterLastDot b.data with
  | none => ""
  | some e =>
    if (b.data.take (b.data.length - e.length)).any (fun c => c ≠ '.') then
      String.mk e
    else ""

/-- Base name of a path: its last segment (empty for the empty path). -/
def baseName (p : List String) : String := p.getLastD ""

/-! ## Live-index filters (`wake_phase.py`) -/

/-- `ProjectWatcher.is_valid_file` (`wake_phase.py` lines 92-96): reject a
path any of whose segments is an ignored directory name, then require the
`os.path.splitext` extension to be in the allow-list. -/
def is_valid_file (file_path : List String) : Bool :=
  if file_path.any (fun seg => decide (seg ∈ IGNORE_DIRS_wake)) then false
  else decide (splitextExt (baseName file_path) ∈ WATCH_EXTENSIONS_wake)

/-- Python's `str.endswith`: the last characters of `s` are exactly
`post`. -/
def strEndsWith (s post : String) : Bool :=
  decide (s.data.drop (s.data.length - post.data.length) = post.data)

/-- The `file.endswith(tuple(WATCH_EXTENSIONS))` filter of the initial
directory scan (`wake_phase.py` line 166). -/
def endsWithWatchExt (file : String) : Bool :=
  WATCH_EXTENSIONS_wake.any (fun e => strEndsWith file e)

/-- Path-level filter implemented by the Consolidation Pipeline's filesystem
pass (`sleep_phase.py` lines 87-92): its `os.walk` prunes sub-directories
whose name is in `IGNORE_DIRS`, and each file is kept only when its
`os.path.splitext` extension is in `WATCH_EXTENSIONS`.  `dirs` are the
directory segments below the walk root, `fname` the file's base name. -/
def consolidationAdmits (dirs : List String) (fname : String) : Bool :=
  !(dirs.any (fun d => decide (d ∈ IGNORE_DIRS_sleep))) &&
    decide (splitextExt fname ∈ WATCH_EXTENSIONS_sleep)

/-- The Live Index Manager's per-path filter (`is_valid_file`) phrased over
the same (directory segments, base name) decomposition, for comparison with
`consolidationAdmits`. -/
def liveAdmits (dirs : List String) (fname : String) : Bool :=
  is_valid_file (dirs ++ [fname])

/-! ## Filesystem model and `os.walk` -/

mutual

/-- Directory-tree entry: files carry their readable content (`none` when
reading them raises); directories carry their entries. -/
inductive FSEntry where
  | file : String → Option Content → FSEntry
  | dir : String → FSForest → FSEntry

/-- Sequence of directory entries. -/
inductive FSForest where
  | nil : FSForest
  | cons : FSEntry → FSForest → FSForest

end

mutual

/-- Files reached by `os.walk` through one directory entry under the path
`pre`, with the in-loop pruning
`dirs[:] = [d for d in dirs if d not in IGNORE_DIRS]` for the given ignore
set: recursion never descends into an ignored directory.  Each reached file
is reported as (directory segments, base name, content).  The relative order
in which `os.walk` interleaves sibling files and sub-directories is
abstracted; all properties proved below are order-insensitive. -/
def walkEntry (ig : List String) (pre : List String) :
    FSEntry → List (List String × String × Option Content)
  | FSEntry.file n c => [(pre, n, c)]
  | FSEntry.dir n sub => if n ∈ ig then [] else walkForest ig (pre ++ [n]) sub

/-- Files reached by the pruned `os.walk` through a sequence of entries. -/
def walkForest (ig : List String) (pre : List String) :
    FSForest → List (List String × String × Option Content)
  | FSForest.nil => []
  | FSForest.cons e rest => walkEntry ig pre e ++ walkForest ig pre rest

end

/-! ## Collections (Chroma) -/

/-- A collection keyed by document id: `upsert` semantics are
insert-or-replace, last write wins, exactly the behaviour
`collection.upsert(ids=..., documents=..., metadatas=...)` provides. -/
def Collection (κ ν : Type) : Type := κ → Option ν

/-- Collection with no documents. -/
def emptyCollection {κ ν : Type} : Collection κ ν := fun _ => none

/-- Upsert of one document. -/
def upsertOne {κ ν : Type} [DecidableEq κ] (c : Collection κ ν) (k : κ) (v : ν) :
    Collection κ ν :=
  fun j => if j = k then some v else c j

/-- Batch upsert, processed in order (later entries for the same id win). -/
def upsertBatch {κ ν : Type} [DecidableEq κ] (c : Collection κ ν)
    (b : List (κ × ν)) : Collection κ ν :=
  b.foldl (fun c p => upsertOne c p.1 p.2) c

/-- Value of the last entry of the batch carrying the given id, if any. -/
def lookupLast {κ ν : Type} [DecidableEq κ] : List (κ × ν) → κ → Option ν
  | [], _ => none
  | p :: t, j =>
    match lookupLast t j with
    | some v => some v
    | none => if p.1 = j then some p.2 else none

/-! ## Live Index Manager state (`wake_phase.py` globals, lines 45-54) -/

/-- Document of the live collection: `update_live_memory` stores the file's
content with metadata `{"filename": basename}`. -/
structure LiveDoc where
  document : Content
  filename : String
deriving DecidableEq

/-- State owned by the Live Index Manager: `LIVE_COLLECTION` (which is `None`
until the first `start_watching` creates it) and `PROJECT_FILE_TREE`. -/
structure LiveState where
  coll : Option (Collection (List String) LiveDoc)
  tree : List (List String)

/-- Live state at module load: no collection, empty tree. -/
def initLive : LiveState := { coll := none, tree := [] }

/-- `update_live_memory` (`wake_phase.py` lines 118-136): read the file
(`none` content means the read raised, swallowed by the bare `except`); when
the content has fewer than 100000 characters, add the path to
`PROJECT_FILE_TREE` and, if the live collection exists, upsert the content
keyed by the path with the base-name metadata.  Note the code has no
emptiness check here. -/
def update_live_memory (s : LiveState) (file_path : List String)
    (content : Option Content) : LiveState :=
  match content with
  | none => s
  | some c =>
    if c.length < 100000 then
      { coll :=
          match s.coll with
          | none => none
          | some coll =>
            some (upsertOne coll file_path ⟨c, baseName file_path⟩),
        tree := s.tree.insert file_path }
    else s

/-- Watch target together with what the filesystem oracle says about it:
`os.path.isfile` / `os.path.isdir` classification, the target's readable
content (single file) or directory entries (directory), or the two failure
shapes (exists but is neither a regular file nor a directory; does not
exist). -/
inductive WatchTarget where
  | file : List String → Option Content → WatchTarget
  | dir : List String → FSForest → WatchTarget
  | other : List String → WatchTarget
  | missing : String → WatchTarget

/-- Watcher handler configuration (`ProjectWatcher.__init__`): whether the
watch is a directory watch, and the absolute target path recorded for a
single-file watch. -/
structure Watcher where
  isDirWatch : Bool
  absTarget : Option (List String)

/-- Initial directory scan of `start_watching` (`wake_phase.py` lines
162-168): walk the tree with `IGNORE_DIRS` pruning and call
`update_live_memory` on every file whose name ends with a watched
extension. -/
def scanDirectory (s : LiveState) (root : List String) (entries : FSForest) :
    LiveState :=
  (walkForest IGNORE_DIRS_wake root entries).foldl
    (fun s pr =>
      if endsWithWatchExt pr.2.1 then update_live_memory s (pr.1 ++ [pr.2.1]) pr.2.2
      else s)
    s

/-- `start_watching` (`wake_phase.py` lines 139-178).  It first resets the
live collection and clears `PROJECT_FILE_TREE` unconditionally; then a file
target is indexed directly (no filter) and its parent directory watched
non-recursively, a directory target is scanned and watched recursively, and
any other existing target reports an error and returns `None` (no
observer). -/
def start_watching (s : LiveState) (t : WatchTarget) : LiveState × Option Watcher :=
  let reset : LiveState := { coll := some emptyCollection, tree := [] }
  match t with
  | .file p c =>
    (update_live_memory reset p c, some { isDirWatch := false, absTarget := some p })
  | .dir root entries =>
    (scanDirectory reset root entries, some { isDirWatch := true, absTarget := none })
  | .other _ => (reset, none)
  | .missing _ => (s, none)

/-- Filesystem event as delivered to the `ProjectWatcher` handler, carrying
whether it concerns a directory, the source path, and the content an
immediate read of that path would return. -/
inductive FsEvent where
  | created : Bool → List String → Option Content → FsEvent
  | modified : Bool → List String → Option Content → FsEvent

/-- Event dispatch of `ProjectWatcher.on_modified` / `on_created`
(`wake_phase.py` lines 98-115). -/
def applyEvent (w : Watcher) (s : LiveState) : FsEvent → LiveState
  | .modified isDir p c =>
    if isDir then s
    else if !w.isDirWatch && !(some p = w.absTarget : Bool) then s
    else if is_valid_file p then update_live_memory s p c
    else s
  | .created isDir p c =>
    if !isDir && w.isDirWatch && is_valid_file p then update_live_memory s p c
    else s

/-- Complete directory-mode watch session: `start_watching` on a directory
target followed by an arbitrary list of delivered filesystem events. -/
def runDirWatch (root : List String) (entries : FSForest)
    (evs : List FsEvent) : LiveState :=
  match start_watching initLive (.dir root entries) with
  | (s, some w) => evs.foldl (applyEvent w) s
  | (s, none) => s

/-! ## Consolidation Pipeline (`sleep_phase.py`) -/

/-- One parsed line of `session_logs.jsonl`, with the fields
`consolidate_chat_logs` reads. -/
structure LogEntry where
  timestamp : String
  role : String
  content : String
deriving DecidableEq

/-- Document of the durable episodic collection, with its metadata
`{timestamp, role, type}`. -/
structure EpiDoc where
  document : String
  timestamp : String
  role : String
  mtype : String
deriving DecidableEq

/-- Document of the durable semantic collection, with its metadata
`{source, path, filename}`. -/
structure SemDoc where
  document : Content
  source : String
  path : List String
  filename : String
deriving DecidableEq

/-- All-or-nothing parse of the log lines (`json.loads` per line inside a
list comprehension): the first malformed line (`none`) makes the whole read
raise before anything else in the pass runs. -/
def parseAllLines {α : Type} : List (Option α) → Option (List α)
  | [] => some []
  | none :: _ => none
  | some x :: t => (parseAllLines t).map (fun l => x :: l)

/-- Batch built by `consolidate_chat_logs` (`sleep_phase.py` lines 56-71):
for the `i`-th entry, id `log_{timestamp}_{i}`, document `"{role}: {content}"`
and metadata `{timestamp, role, type: chat_log}`. -/
def episodicBatch (logs : List LogEntry) : List (String × EpiDoc) :=
  logs.enum.map (fun pr =>
    ("log_" ++ pr.2.timestamp ++ "_" ++ toString pr.1,
     { document := pr.2.role ++ ": " ++ pr.2.content,
       timestamp := pr.2.timestamp, role := pr.2.role, mtype := "chat_log" }))

/-- `consolidate_chat_logs` (`sleep_phase.py` lines 44-75).  `logFile` is
`none` when `session_logs.jsonl` does not exist (the pass is skipped);
otherwise it is the list of per-line parse results.  A malformed line makes
the list-comprehension read raise (`Except.error`), in which case the
`collection.upsert` at the end of the pass is never reached; otherwise the
batch is upserted (only when non-empty, per `if ids:`). -/
def consolidate_chat_logs (c : Collection String EpiDoc)
    (logFile : Option (List (Option LogEntry))) :
    Except Unit (Collection String EpiDoc) :=
  match logFile with
  | none => .ok c
  | some lines =>
    match parseAllLines lines with
    | none => .error ()
    | some logs =>
      let b := episodicBatch logs
      .ok (if b.isEmpty then c else upsertBatch c b)

/-- Batch built by `index_project_files` (`sleep_phase.py` lines 86-113):
walk the project tree with `IGNORE_DIRS` pruning; keep files whose
`os.path.splitext` extension is allowed; skip files whose read raises
(`except Exception: continue`), files empty after `strip()`, and files
longer than 50000 characters; id is the file path, metadata
`{source: file_system, path, filename}`. -/
def semanticBatch (root : List String) (entries : FSForest) :
    List (List String × SemDoc) :=
  (walkForest IGNORE_DIRS_sleep root entries).filterMap (fun pr =>
    if splitextExt pr.2.1 ∈ WATCH_EXTENSIONS_sleep then
      match pr.2.2 with
      | none => none
      | some content =>
        if content.all Char.isWhitespace || content.length > 50000 then none
        else
          some (pr.1 ++ [pr.2.1],
            { document := content, source := "file_system",
              path := pr.1 ++ [pr.2.1], filename := pr.2.1 })
    else none)

/-- `index_project_files` (`sleep_phase.py` lines 78-118): upsert the batch
into the durable semantic collection (only when non-empty, per
`if ids:`). -/
def index_project_files (c : Collection (List String) SemDoc)
    (root : List String) (entries : FSForest) :
    Collection (List String) SemDoc :=
  let b := semanticBatch root entries
  if b.isEmpty then c else upsertBatch c b

/-! ## Wake-phase interactive loop (`wake_phase.py`, `wake_system`) -/

/-- `STANDARD_PROMPT` (`wake_phase.py` lines 57-63), the fixed leading
system-role entry of the conversation history. -/
def STANDARD_PROMPT : String :=
  "\nYou are THE WORLD RUNNER (System 1 of Project Apeiron).\nYou have access to:\n1. [PROJECT STRUCTURE]: The full list of files in the folder.\n2. [RELEVANT FILES]: The specific file contents most relevant to the user's last query.\nGoal: Provide accurate, technical, and context-aware answers.\n"

/-- Overall session state of `wake_system`: the live-index globals, the
`LONG_TERM_MEMORY` recall buffer, `conversation_history`, the entries
appended to `session_logs.jsonl` during this session (timestamps
abstracted), and whether an observer is active. -/
structure SysState where
  live : LiveState
  ltm : List String
  history : List Msg
  log : List Msg
  observer : Bool

/-- Session state as `wake_system` starts (`wake_phase.py` lines 258-263). -/
def initState : SysState :=
  { live := initLive, ltm := [],
    history := [{ role := "system", content := STANDARD_PROMPT }],
    log := [], observer := false }

/-- Insertion sort by string order, modelling Python's `sorted` over the
rendered tree paths. -/
def insertSorted (x : String) : List String → List String
  | [] => [x]
  | y :: t => if x ≤ y then x :: y :: t else y :: insertSorted x t

/-- Sorted list of strings. -/
def sortStrings (l : List String) : List String := l.foldr insertSorted []

/-- Rendering of a tree path for the structure section.  `os.path.relpath`
against the current working directory is display-only; the model renders the
stored segments joined by the separator. -/
def renderPath (p : List String) : String := String.intercalate "/" p

/-- `build_smart_context` (`wake_phase.py` lines 182-219).  Section 1 lists
the sorted `PROJECT_FILE_TREE` when it is non-empty.  Section 2 runs when
both `LIVE_COLLECTION` and `PROJECT_FILE_TREE` are truthy; the top-3
similarity ranking is the external embedding backend, so the returned
(document, filename) pairs are the oracle parameter `retrieved` (note
`results["documents"]` is the non-empty outer list `[[...]]`, so the section
header appears whenever the query runs).  Section 3 appends the joined
`LONG_TERM_MEMORY` when the buffer is non-empty. -/
def build_smart_context (s : SysState) (retrieved : List (Content × String)) :
    String :=
  let ctx1 :=
    if s.live.tree.isEmpty then ""
    else
      "\n=== PROJECT STRUCTURE ===\n" ++
        String.join ((sortStrings (s.live.tree.map renderPath)).map
          (fun r => "- " ++ r ++ "\n"))
  let ctx2 :=
    if s.live.coll.isSome && !s.live.tree.isEmpty then
      "\n=== RELEVANT FILE CONTENTS ===\n" ++
        String.join (retrieved.map
          (fun pr => "\n--- " ++ pr.2 ++ " ---\n" ++ String.mk pr.1 ++ "\n"))
    else ""
  let ctx3 :=
    if s.ltm.isEmpty then ""
    else "\n=== RECALLED HISTORY ===\n" ++ String.intercalate "\n" s.ltm
  ctx1 ++ ctx2 ++ ctx3

/-- Python's `list.insert(-1, m)`: insert before the last element (for an
empty list, at position 0). -/
def pyInsertBeforeLast (xs : List Msg) (m : Msg) : List Msg :=
  match xs.getLast? with
  | none => [m]
  | some l => xs.dropLast ++ [m, l]

/-- Message sequence a standard chat turn passes to the generative model
(`wake_phase.py` lines 356-363): copy the conversation history, insert the
assembled block at index `-1` as a system-role message when it is non-empty
(Python string truthiness), then append the latest user turn. -/
def chatBuiltMsgs (s : SysState) (input : String)
    (retrieved : List (Content × String)) : List Msg :=
  let ctx := build_smart_context s retrieved
  let msgs := s.history
  let msgs := if ctx = "" then msgs else pyInsertBeforeLast msgs ⟨"system", ctx⟩
  msgs ++ [⟨"user", input⟩]

/-- One iteration of the `wake_system` loop, as a command together with the
oracle outputs it consumes: the generative model's response text, the
filesystem's classification of a watch target, the durable store's answer to
a `recall` query, and the embedding backend's retrieval ranking. -/
inductive Cmd where
  | achieve : String → String → Cmd
  | plan : String → String → Cmd
  | watch : WatchTarget → Cmd
  | recall : String → List String → Cmd
  | chat : String → String → List (Content × String) → Cmd

/-- Does this command's branch call `build_smart_context` (consume a context
assembly)?  True for achieve mode (`wake_phase.py` line 281) and standard
chat (line 358) only. -/
def performsAssembly : Cmd → Bool
  | .achieve _ _ => true
  | .chat _ _ _ => true
  | _ => false

/-- State transition of one `wake_system` loop iteration
(`wake_phase.py` lines 266-399).
Achieve mode builds a context and calls the model and the action layer
(external; the loop state is untouched — in particular `LONG_TERM_MEMORY` is
not cleared).  Plan mode only calls the model and the validator.  Watch mode
returns unchanged when `os.path.exists` fails, otherwise stops any previous
observer and runs `start_watching`.  Recall replaces the buffer with the
query result.  Standard chat appends the user and assistant turns to the
history and the log and finally clears `LONG_TERM_MEMORY`. -/
def step (s : SysState) : Cmd → SysState
  | .achieve _ _ => s
  | .plan _ _ => s
  | .watch t =>
    match t with
    | .missing _ => s
    | t =>
      let r := start_watching s.live t
      { s with live := r.1, observer := r.2.isSome }
  | .recall _ mems => { s with ltm := mems }
  | .chat input resp _ =>
    { s with
      history := s.history ++ [⟨"user", input⟩, ⟨"assistant", resp⟩],
      log := s.log ++ [⟨"user", input⟩, ⟨"assistant", resp⟩],
      ltm := [] }

/-- A whole session: fold `step` over the commands from the start state. -/
def runSession (cmds : List Cmd) : SysState := cmds.foldl step initState

/-- Session consisting of `n` consecutive standard chat turns. -/
def chatIter : Nat → SysState
  | 0 => initState
  | n + 1 => step (chatIter n) (.chat "hi" "ok" [])

/-! ## Helper lemmas -/

/-- A batch upsert reads back, at each id, the last batch entry for that id,
falling back to the prior collection. -/
theorem upsertBatch_apply {κ ν : Type} [DecidableEq κ] :
    ∀ (b : List (κ × ν)) (c : Collection κ ν) (j : κ),
      upsertBatch c b j =
        match lookupLast b j with
        | some v => some v
        | none => c j := by
  intro b
  induction b with
  | nil => intro c j; rfl
  | cons p t ih =>
    intro c j
    rw [upsertBatch, List.foldl_cons]
    have : upsertBatch (upsertOne c p.1 p.2) t j =
        match lookupLast t j with
        | some v => some v
        | none => upsertOne c p.1 p.2 j := ih _ j
    rw [upsertBatch] at this
    rw [this, lookupLast]
    cases h : lookupLast t j with
    | some v => simp
    | none =>
      by_cases hj : p.1 = j
      · simp [upsertOne, hj]
      · have hj' : ¬ j = p.1 := fun hh => hj hh.symm
        simp [upsertOne, hj, hj']

/-- Upserting the same batch twice leaves the collection exactly as after
upserting it once. -/
theorem upsertBatch_idem {κ ν : Type} [DecidableEq κ] (c : Collection κ ν)
    (b : List (κ × ν)) : upsertBatch (upsertBatch c b) b = upsertBatch c b := by
  funext j
  rw [upsertBatch_apply, upsertBatch_apply]
  cases h : lookupLast b j with
  | some v => simp
  | none => simp

/-- A malformed line anywhere in the log makes the all-or-nothing parse
fail. -/
theorem parseAllLines_of_mem_none {α : Type} :
    ∀ (lines : List (Option α)), none ∈ lines → parseAllLines lines = none := by
  intro lines
  induction lines with
  | nil => intro h; exact absurd h (List.not_mem_nil _)
  | cons x t ih =>
    intro h
    cases x with
    | none => rfl
    | some a =>
      have ht : none ∈ t := by
        rcases List.mem_cons.mp h with h1 | h1
        · exact absurd h1 (by simp)
        · exact h1
      simp [parseAllLines, ih ht]

/-- Membership in the tree after `update_live_memory`: only the updated path
can be new. -/
theorem update_live_memory_tree_mem {s : LiveState} {q : List String}
    {c : Option Content} {p : List String}
    (h : p ∈ (update_live_memory s q c).tree) : p ∈ s.tree ∨ p = q := by
  cases c with
  | none => exact Or.inl h
  | some cc =>
    rw [update_live_memory] at h
    by_cases hl : cc.length < 100000
    · rw [if_pos hl] at h
      rcases List.mem_insert_iff.mp h with h1 | h1
      · exact Or.inr h1
      · exact Or.inl h1
    · rw [if_neg hl] at h
      exact Or.inl h

/-- Membership in the tree after a delivered watcher event: any new path
passed `is_valid_file`. -/
theorem applyEvent_tree_mem {w : Watcher} {s : LiveState} {ev : FsEvent}
    {p : List String} (h : p ∈ (applyEvent w s ev).tree) :
    p ∈ s.tree ∨ is_valid_file p = true := by
  cases ev with
  | modified isDir q c =>
    rw [applyEvent] at h
    by_cases h1 : isDir
    · rw [if_pos h1] at h; exact Or.inl h
    · rw [if_neg h1] at h
      by_cases h2 : (!w.isDirWatch && !(some q = w.absTarget : Bool)) = true
      · rw [if_pos h2] at h; exact Or.inl h
      · rw [if_neg h2] at h
        by_cases h3 : is_valid_file q = true
        · rw [if_pos h3] at h
          rcases update_live_memory_tree_mem h with h4 | h4
          · exact Or.inl h4
          · exact Or.inr (h4 ▸ h3)
        · rw [if_neg h3] at h; exact Or.inl h
  | created isDir q c =>
    rw [applyEvent] at h
    by_cases h1 : (!isDir && w.isDirWatch && is_valid_file q) = true
    · rw [if_pos h1] at h
      rcases update_live_memory_tree_mem h with h4 | h4
      · exact Or.inl h4
      · refine Or.inr (h4 ▸ ?_)
        exact (Bool.and_eq_true _ _ |>.mp h1).2
    · rw [if_neg h1] at h; exact Or.inl h

/-- Membership in the tree after a sequence of delivered events. -/
theorem foldEvents_tree_mem (w : Watcher) :
    ∀ (evs : List FsEvent) (s : LiveState) (p : List String),
      p ∈ (evs.foldl (applyEvent w) s).tree →
      p ∈ s.tree ∨ is_valid_file p = true := by
  intro evs
  induction evs with
  | nil => intro s p h; exact Or.inl h
  | cons ev t ih =>
    intro s p h
    rw [List.foldl_cons] at h
    rcases ih (applyEvent w s ev) p h with h1 | h1
    · exact applyEvent_tree_mem h1
    · exact Or.inr h1

/-- Membership in the tree after the initial directory scan: any new path is
a walked file whose name matched the `endswith` filter. -/
theorem scanDirectory_tree_mem :
    ∀ (l : List (List String × String × Option Content)) (s : LiveState)
      (p : List String),
      p ∈ (l.foldl
        (fun s pr =>
          if endsWithWatchExt pr.2.1 then
            update_live_memory s (pr.1 ++ [pr.2.1]) pr.2.2
          else s) s).tree →
      p ∈ s.tree ∨
        ∃ pr, pr ∈ l ∧ endsWithWatchExt pr.2.1 = true ∧ p = pr.1 ++ [pr.2.1] := by
  intro l
  induction l with
  | nil => intro s p h; exact Or.inl h
  | cons x t ih =>
    intro s p h
    rw [List.foldl_cons] at h
    rcases ih _ p h with h1 | h1
    · by_cases hx : endsWithWatchExt x.2.1 = true
      · rw [if_pos hx] at h1
        rcases update_live_memory_tree_mem h1 with h2 | h2
        · exact Or.inl h2
        · exact Or.inr ⟨x, List.mem_cons_self _ _, hx, h2⟩
      · rw [if_neg hx] at h1; exact Or.inl h1
    · rcases h1 with ⟨pr, hpr, he, hp⟩
      exact Or.inr ⟨pr, List.mem_cons_of_mem _ hpr, he, hp⟩

mutual

/-- Structure of paths produced by the pruned walk of one entry: the
directory part extends the start directory by segments none of which is
ignored. -/
theorem walkEntry_mem (ig : List String) :
    ∀ (pre : List String) (e : FSEntry)
      (pr : List String × String × Option Content), pr ∈ walkEntry ig pre e →
      ∃ mid, pr.1 = pre ++ mid ∧ ∀ d ∈ mid, ¬ d ∈ ig
  | pre, FSEntry.file n c, pr => by
    intro h
    rw [walkEntry] at h
    rcases List.mem_singleton.mp h with rfl
    exact ⟨[], by simp, by simp⟩
  | pre, FSEntry.dir n sub, pr => by
    intro h
    rw [walkEntry] at h
    by_cases hn : n ∈ ig
    · rw [if_pos hn] at h; exact absurd h (List.not_mem_nil _)
    · rw [if_neg hn] at h
      rcases walkForest_mem ig (pre ++ [n]) sub pr h with ⟨mid, hmid, hig⟩
      refine ⟨n :: mid, ?_, ?_⟩
      · rw [hmid, List.append_assoc, List.singleton_append]
      · intro d hd
        rcases List.mem_cons.mp hd with rfl | hd
        · exact hn
        · exact hig d hd

/-- Structure of paths produced by the pruned walk of an entry sequence. -/
theorem walkForest_mem (ig : List String) :
    ∀ (pre : List String) (es : FSForest)
      (pr : List String × String × Option Content), pr ∈ walkForest ig pre es →
      ∃ mid, pr.1 = pre ++ mid ∧ ∀ d ∈ mid, ¬ d ∈ ig
  | pre, FSForest.nil, pr => by
    intro h; exact absurd h (List.not_mem_nil _)
  | pre, FSForest.cons e rest, pr => by
    intro h
    rw [walkForest] at h
    rcases List.mem_append.mp h with h1 | h1
    · exact walkEntry_mem ig pre e pr h1
    · exact walkForest_mem ig pre rest pr h1

end

/-- Every document the consolidation semantic pass upserts is non-empty
after trimming and at most 50000 characters long. -/
theorem semanticBatch_content {root : List String} {entries : FSForest}
    {pr : List String × SemDoc} (h : pr ∈ semanticBatch root entries) :
    pr.2.document.all Char.isWhitespace = false ∧ pr.2.document.length ≤ 50000 := by
  rcases List.mem_filterMap.mp h with ⟨a, _, ha⟩
  split at ha
  · split at ha
    · exact absurd ha (by simp)
    · rename_i content _
      split at ha
      · exact absurd ha (by simp)
      · rename_i hskip
        simp only [Bool.or_eq_true, decide_eq_true_eq, not_or] at hskip
        obtain ⟨h1, h2⟩ := hskip
        rw [Bool.not_eq_true] at h1
        obtain rfl := Option.some_inj.mp ha
        refine ⟨h1, ?_⟩
        show content.length ≤ 50000
        omega
  · exact absurd ha (by simp)

/-- Every ignored-directory name has an empty `os.path.splitext`
extension. -/
theorem ignored_ext_empty : ∀ d ∈ IGNORE_DIRS_wake, splitextExt d = "" := by decide

/-- Outside the three extra live-side extensions, the two extension
allow-lists agree. -/
theorem ext_agree (e : String)
    (h : ¬ e ∈ ([".yaml", ".yml", ".toml"] : List String)) :
    (e ∈ WATCH_EXTENSIONS_wake ↔ e ∈ WATCH_EXTENSIONS_sleep) := by
  constructor
  · intro hw
    simp only [WATCH_EXTENSIONS_wake, List.mem_cons, List.not_mem_nil, or_false] at hw
    rcases hw with rfl | rfl | rfl | rfl | rfl | rfl | rfl | rfl | rfl | rfl
    all_goals first
      | decide
      | (exact absurd (by decide) h)
  · intro hs
    simp only [WATCH_EXTENSIONS_sleep, List.mem_cons, List.not_mem_nil,
      or_false] at hs
    rcases hs with rfl | rfl | rfl | rfl | rfl | rfl | rfl
    all_goals decide

/-- Length of the conversation history after `n` chat turns. -/
theorem chatIter_history_length (n : Nat) :
    (chatIter n).history.length = 2 * n + 1 := by
  induction n with
  | zero => rfl
  | succ m ih =>
    have : (chatIter (m + 1)).history =
        (chatIter m).history ++
          [⟨"user", "hi"⟩, ⟨"assistant", "ok"⟩] := rfl
    rw [this, List.length_append, ih]
    simp only [List.length_cons, List.length_nil]
    omega

/-! ## Claim C1 -/

/-- Claim C1, counterexample.  The claim states that after every context
assembly that consumed a non-empty `LONG_TERM_MEMORY` buffer — standard chat
or achieve mode alike — the buffer is empty.  In the session `recall` (which
loads one snippet) followed by an achieve command, the achieve branch calls
`build_smart_context` (so `performsAssembly` is true) with the non-empty
buffer, yet after the iteration the buffer still holds the snippet: the
achieve branch of `wake_system` never clears `LONG_TERM_MEMORY`. -/
theorem c1_counterexample :
    performsAssembly (Cmd.achieve "g" "resp") = true ∧
    (runSession [Cmd.recall "q" ["m"]]).ltm ≠ [] ∧
    (runSession [Cmd.recall "q" ["m"], Cmd.achieve "g" "resp"]).ltm = ["m"] := by
  refine ⟨rfl, ?_, rfl⟩
  decide

/-- Claim C1, amended.  The buffer is empty before the first `recall` of a
session, and a standard chat turn always clears it by the end of the turn
(so snippets never persist past a chat-turn assembly); but an achieve-mode
assembly leaves the buffer untouched, so recalled snippets persist past
achieve-mode assemblies until the next chat turn or `recall`. -/
theorem c1_amended :
    initState.ltm = [] ∧
    (∀ (s : SysState) (u r : String) (retr : List (Content × String)),
        (step s (Cmd.chat u r retr)).ltm = []) ∧
    (∀ (s : SysState) (g r : String),
        (step s (Cmd.achieve g r)).ltm = s.ltm) :=
  ⟨rfl, fun _ _ _ _ => rfl, fun _ _ _ => rfl⟩

/-! ## Claim C5 -/

/-- Claim C5, counterexample.  The claim states that a failed watch start
makes no state change.  For a target that exists but is neither a regular
file nor a directory (e.g. a FIFO), `os.path.exists` passes in `wake_system`
and `start_watching` resets the live collection and clears
`PROJECT_FILE_TREE` before discovering the failure, so a previously
non-empty tree is emptied by the failed call. -/
theorem c5_counterexample :
    (step { initState with live := { coll := none, tree := [["a.py"]] } }
        (Cmd.watch (WatchTarget.other ["weird"]))).live.tree = [] ∧
    ({ initState with
        live := { coll := none, tree := [["a.py"]] } } : SysState).live.tree ≠
      [] := by
  exact ⟨rfl, by decide⟩

/-- Claim C5, amended.  A watch on a non-existent target is rejected by the
`os.path.exists` check in `wake_system` and changes nothing at all; a watch
on an existing target that is neither a regular file nor a directory reports
the error only after `start_watching` has already reset the live collection
and cleared `ProjectFileTree`: afterwards the tree is empty and the live
collection is the freshly created empty one, no observer is active, and the
recall buffer, conversation history and log are unchanged. -/
theorem c5_amended :
    (∀ (s : SysState) (p : String),
        step s (Cmd.watch (WatchTarget.missing p)) = s) ∧
    (∀ (s : SysState) (p : List String),
        (step s (Cmd.watch (WatchTarget.other p))).live.tree = [] ∧
        (step s (Cmd.watch (WatchTarget.other p))).live.coll =
          some emptyCollection ∧
        (step s (Cmd.watch (WatchTarget.other p))).observer = false ∧
        (step s (Cmd.watch (WatchTarget.other p))).ltm = s.ltm ∧
        (step s (Cmd.watch (WatchTarget.other p))).history = s.history ∧
        (step s (Cmd.watch (WatchTarget.other p))).log = s.log) :=
  ⟨fun _ _ => rfl, fun _ _ => ⟨rfl, rfl, rfl, rfl, rfl, rfl⟩⟩

/-! ## Claim C7 -/

/-- Claim C7, confirmed.  When any line of the interaction log fails to
parse, the episodic consolidation pass raises before reaching its final
`collection.upsert`: the whole pass is the error result and the durable
episodic collection is untouched (the only write of the pass is the `.ok`
result). -/
theorem c7_theorem (c : Collection String EpiDoc)
    (lines : List (Option LogEntry)) (h : none ∈ lines) :
    consolidate_chat_logs c (some lines) = .error () := by
  rw [consolidate_chat_logs, parseAllLines_of_mem_none lines h]

/-- Claim C7, witness: a one-line log whose line is malformed. -/
theorem c7_witness :
    consolidate_chat_logs (emptyCollection : Collection String EpiDoc)
      (some [none]) = .error () :=
  c7_theorem emptyCollection [none] (by decide)

/-! ## Claim C9 -/

/-- Claim C9, counterexample.  The claim states the conversation window is
bounded: the most recent `N` exchanges are kept and older entries are
evicted from the front.  No bound exists: `wake_system` only ever appends to
`conversation_history` (there is no eviction code at all), so over the
sessions consisting of `n` chat turns the window length `2 * n + 1` exceeds
every candidate bound. -/
theorem c9_counterexample :
    ¬ ∃ B : Nat, ∀ n : Nat, (chatIter n).history.length ≤ B := by
  rintro ⟨B, h⟩
  have hB := h (B + 1)
  rw [chatIter_history_length] at hB
  omega

/-- Claim C9, amended.  The conversation window starts as the single fixed
system-role entry; every loop iteration only ever appends to it (nothing is
evicted, so it is unbounded rather than holding only the most recent `N`
exchanges); a standard chat turn appends exactly the user and assistant
entries, and appends the corresponding entries to the interaction log as
well. -/
theorem c9_amended :
    initState.history = [{ role := "system", content := STANDARD_PROMPT }] ∧
    (∀ (s : SysState) (c : Cmd),
        ∃ rest, (step s c).history = s.history ++ rest) ∧
    (∀ (s : SysState) (u r : String) (retr : List (Content × String)),
        (step s (Cmd.chat u r retr)).history =
          s.history ++ [⟨"user", u⟩, ⟨"assistant", r⟩] ∧
        (step s (Cmd.chat u r retr)).log =
          s.log ++ [⟨"user", u⟩, ⟨"assistant", r⟩]) := by
  refine ⟨rfl, ?_, fun _ _ _ _ => ⟨rfl, rfl⟩⟩
  intro s c
  cases c
  · exact ⟨[], (List.append_nil _).symm⟩
  · exact ⟨[], (List.append_nil _).symm⟩
  · rename_i t
    cases t
    · exact ⟨[], (List.append_nil _).symm⟩
    · exact ⟨[], (List.append_nil _).symm⟩
    · exact ⟨[], (List.append_nil _).symm⟩
    · exact ⟨[], (List.append_nil _).symm⟩
  · exact ⟨[], (List.append_nil _).symm⟩
  · rename_i u r retr
    exact ⟨[⟨"user", u⟩, ⟨"assistant", r⟩], rfl⟩

/-! ## Claim C2 -/

/-- Claim C2, counterexample.  The claim states that the live index and the
consolidation filesystem pass apply identical extension allow-lists and
ignored-directory sets.  The allow-lists differ: `.yaml` (likewise `.yml`
and `.toml`) is watched by the live index but not by the consolidation
pass, so the path `src/a.yaml` is admitted by the live filter and rejected
by the consolidation filter. -/
theorem c2_counterexample :
    ".yaml" ∈ WATCH_EXTENSIONS_wake ∧ ¬ ".yaml" ∈ WATCH_EXTENSIONS_sleep ∧
    liveAdmits ["src"] "a.yaml" = true ∧
    consolidationAdmits ["src"] "a.yaml" = false := by decide

/-- Claim C2, amended.  The ignored-directory sets of the two modules are
identical and the consolidation allow-list is contained in the live one, but
the live list additionally holds `.yaml`, `.yml` and `.toml`; for every path
whose extension is not one of those three the two filters agree (that the
live filter also tests the base name against the ignored-directory set does
not break the agreement, because every ignored name has an empty
extension). -/
theorem c2_amended :
    IGNORE_DIRS_wake = IGNORE_DIRS_sleep ∧
    (∀ e, e ∈ WATCH_EXTENSIONS_sleep → e ∈ WATCH_EXTENSIONS_wake) ∧
    (∀ (dirs : List String) (fname : String),
        ¬ splitextExt fname ∈ ([".yaml", ".yml", ".toml"] : List String) →
        (liveAdmits dirs fname = true ↔ consolidationAdmits dirs fname = true)) := by
  refine ⟨rfl, by decide, ?_⟩
  intro dirs fname hext
  rw [liveAdmits, is_valid_file, consolidationAdmits]
  have hbase : baseName (dirs ++ [fname]) = fname := by
    rw [baseName, List.getLastD_concat]
  rw [hbase]
  have hsw : IGNORE_DIRS_sleep = IGNORE_DIRS_wake := rfl
  simp only [hsw]
  by_cases hf : fname ∈ IGNORE_DIRS_wake
  · have hany : (dirs ++ [fname]).any
        (fun seg => decide (seg ∈ IGNORE_DIRS_wake)) = true := by
      rw [List.any_append]
      simp [hf]
    rw [if_pos hany]
    have hempty : splitextExt fname = "" := ignored_ext_empty fname hf
    rw [hempty]
    simp [WATCH_EXTENSIONS_sleep]
  · have hany : (dirs ++ [fname]).any
        (fun seg => decide (seg ∈ IGNORE_DIRS_wake)) =
        dirs.any (fun seg => decide (seg ∈ IGNORE_DIRS_wake)) := by
      rw [List.any_append]
      simp [hf]
    rw [hany]
    by_cases hd : dirs.any (fun seg => decide (seg ∈ IGNORE_DIRS_wake)) = true
    · rw [if_pos hd, hd]
      simp
    · rw [if_neg hd]
      rw [Bool.not_eq_true] at hd
      rw [hd]
      simp only [Bool.not_false, Bool.true_and, decide_eq_true_eq]
      exact ext_agree _ hext

/-- Claim C2 amended, witness: at the path `src/a.md` (extension `.md`, not
one of the three extra live-side extensions) both filters agree, and `.md`
lies in both allow-lists. -/
theorem c2_witness :
    (liveAdmits ["src"] "a.md" = true ↔
      consolidationAdmits ["src"] "a.md" = true) ∧
    ".md" ∈ WATCH_EXTENSIONS_wake :=
  ⟨c2_amended.2.2 ["src"] "a.md" (by decide),
   c2_amended.2.1 ".md" (by decide)⟩

/-! ## Claim C3 -/

/-- Claim C3, counterexample.  The claim states that no path outside the
extension allow-list ever appears in `ProjectFileTree`.  Starting a watch on
the single file `notes.log` indexes it via `update_live_memory` without any
`is_valid_file` check, so `ProjectFileTree` then holds a path whose
extension `.log` is outside the allow-list. -/
theorem c3_counterexample :
    (start_watching initLive
        (WatchTarget.file ["notes.log"] (some ['x']))).1.tree =
      [["notes.log"]] ∧
    is_valid_file ["notes.log"] = false := by decide

/-- Claim C3, amended.  For a watch started on a directory, regardless of
which filesystem events fire, every path in `ProjectFileTree` either passed
the watcher's `is_valid_file` filter (event-delivered paths) or was produced
by the initial scan: it extends the watch root by non-ignored directory
segments and a file name ending in a watched extension.  A single-file
watch, by contrast, indexes its target unconditionally (see the
counterexample), so the subset property holds only for directory watches. -/
theorem c3_amended (root : List String) (entries : FSForest)
    (evs : List FsEvent) (p : List String)
    (h : p ∈ (runDirWatch root entries evs).tree) :
    is_valid_file p = true ∨
      ∃ mid n, p = root ++ (mid ++ [n]) ∧
        (∀ d ∈ mid, ¬ d ∈ IGNORE_DIRS_wake) ∧ endsWithWatchExt n = true := by
  have hrun : runDirWatch root entries evs =
      evs.foldl (applyEvent { isDirWatch := true, absTarget := none })
        (scanDirectory { coll := some emptyCollection, tree := [] }
          root entries) := rfl
  rw [hrun] at h
  rcases foldEvents_tree_mem _ evs _ p h with h1 | h1
  · rw [scanDirectory] at h1
    rcases scanDirectory_tree_mem _ _ p h1 with h2 | h2
    · exact absurd h2 (List.not_mem_nil _)
    · rcases h2 with ⟨pr, hpr, hends, hp⟩
      rcases walkForest_mem _ root entries pr hpr with ⟨mid, hmid, hig⟩
      right
      exact ⟨mid, pr.2.1, by rw [hp, hmid, List.append_assoc], hig, hends⟩
  · exact Or.inl h1

/-- Claim C3 amended, witness: after watching a directory `proj` holding the
single file `a.py`, with no events, the tree path `proj/a.py` satisfies the
invariant. -/
theorem c3_witness :
    is_valid_file ["proj", "a.py"] = true ∨
      ∃ mid n, ["proj", "a.py"] = ["proj"] ++ (mid ++ [n]) ∧
        (∀ d ∈ mid, ¬ d ∈ IGNORE_DIRS_wake) ∧ endsWithWatchExt n = true :=
  c3_amended ["proj"]
    (FSForest.cons (FSEntry.file "a.py" (some ['x'])) FSForest.nil) []
    ["proj", "a.py"] (by decide)

/-! ## Claim C4 -/

set_option maxRecDepth 8192 in
/-- Claim C4, counterexample.  The claim states the assembled context block
is inserted immediately before the latest user turn.  On the first chat turn
after a recall, the built message sequence is
`[context block, standard prompt, user turn]`: `msgs.insert(-1, ...)` runs
before the user turn is appended, so the block lands before the last entry
of the prior history and the message immediately before the user turn is the
original system prompt, not the block. -/
theorem c4_counterexample :
    chatBuiltMsgs { initState with ltm := ["m"] } "hi" [] =
      [⟨"system", "\n=== RECALLED HISTORY ===\nm"⟩,
       ⟨"system", STANDARD_PROMPT⟩, ⟨"user", "hi"⟩] ∧
    (⟨"system", STANDARD_PROMPT⟩ : Msg) ≠
      ⟨"system", "\n=== RECALLED HISTORY ===\nm"⟩ := by decide

/-- Claim C4, amended.  When the assembled block is non-empty it is inserted
as a system-role message immediately before the final entry of the copied
prior conversation window — two positions before the appended latest user
turn, not immediately before it — and it is not persisted: the conversation
window and the log gain exactly the user and assistant entries. -/
theorem c4_amended (s : SysState) (input resp : String)
    (retr : List (Content × String)) (hist : List Msg) (lastm : Msg)
    (hctx : ¬ build_smart_context s retr = "")
    (hh : s.history = hist ++ [lastm]) :
    chatBuiltMsgs s input retr =
      hist ++ [⟨"system", build_smart_context s retr⟩, lastm,
        ⟨"user", input⟩] ∧
    (step s (Cmd.chat input resp retr)).history =
      s.history ++ [⟨"user", input⟩, ⟨"assistant", resp⟩] ∧
    (step s (Cmd.chat input resp retr)).log =
      s.log ++ [⟨"user", input⟩, ⟨"assistant", resp⟩] := by
  refine ⟨?_, rfl, rfl⟩
  have hdef : chatBuiltMsgs s input retr =
      (if build_smart_context s retr = "" then s.history
       else pyInsertBeforeLast s.history
         ⟨"system", build_smart_context s retr⟩) ++
        [⟨"user", input⟩] := rfl
  have hins : pyInsertBeforeLast (hist ++ [lastm])
      ⟨"system", build_smart_context s retr⟩ =
      hist ++ [⟨"system", build_smart_context s retr⟩, lastm] := by
    rw [pyInsertBeforeLast, List.getLast?_concat, List.dropLast_concat]
  rw [hdef, if_neg hctx, hh, hins]
  simp

set_option maxRecDepth 8192 in
/-- Claim C4 amended, witness: first chat turn after a recall, applied at
the concrete prior window `[standard prompt]`. -/
theorem c4_witness :
    chatBuiltMsgs { initState with ltm := ["m"] } "hi" [] =
      [] ++ [⟨"system", build_smart_context { initState with ltm := ["m"] } []⟩,
        ⟨"system", STANDARD_PROMPT⟩, ⟨"user", "hi"⟩] ∧
    (step { initState with ltm := ["m"] } (Cmd.chat "hi" "ok" [])).history =
      ({ initState with ltm := ["m"] } : SysState).history ++
        [⟨"user", "hi"⟩, ⟨"assistant", "ok"⟩] ∧
    (step { initState with ltm := ["m"] } (Cmd.chat "hi" "ok" [])).log =
      ({ initState with ltm := ["m"] } : SysState).log ++
        [⟨"user", "hi"⟩, ⟨"assistant", "ok"⟩] :=
  c4_amended { initState with ltm := ["m"] } "hi" "ok" [] []
    ⟨"system", STANDARD_PROMPT⟩ (by decide) rfl

/-! ## Claim C6 -/

/-- Claim C6, confirmed.  Both consolidation passes are idempotent on an
unchanged log and filesystem: every id, document and metadata they derive is
a deterministic function of the log line (timestamp and position) or of the
file path and content, and upserts are last-write-wins per id, so a second
run reproduces exactly the collection contents of the first. -/
theorem c6_theorem :
    (∀ (c : Collection String EpiDoc)
        (logFile : Option (List (Option LogEntry)))
        (c1 : Collection String EpiDoc),
        consolidate_chat_logs c logFile = .ok c1 →
        consolidate_chat_logs c1 logFile = .ok c1) ∧
    (∀ (c : Collection (List String) SemDoc) (root : List String)
        (entries : FSForest),
        index_project_files (index_project_files c root entries) root entries =
          index_project_files c root entries) := by
  constructor
  · intro c logFile c1 h
    cases logFile with
    | none =>
      have h0 : (.ok c : Except Unit (Collection String EpiDoc)) = .ok c1 := h
      obtain rfl : c = c1 := by injection h0
      rfl
    | some lines =>
      cases hp : parseAllLines lines with
      | none =>
        rw [consolidate_chat_logs, hp] at h
        exact absurd h (by simp)
      | some logs =>
        rw [consolidate_chat_logs, hp] at h
        obtain rfl :
            (if (episodicBatch logs).isEmpty then c
             else upsertBatch c (episodicBatch logs)) = c1 := by
          injection h
        rw [consolidate_chat_logs, hp]
        by_cases hb : (episodicBatch logs).isEmpty
        · simp only [hb, if_true]
        · simp only [hb, if_false, Bool.false_eq_true]
          rw [upsertBatch_idem]
  · intro c root entries
    have hdef : ∀ (d : Collection (List String) SemDoc),
        index_project_files d root entries =
          if (semanticBatch root entries).isEmpty then d
          else upsertBatch d (semanticBatch root entries) := fun d => rfl
    simp only [hdef]
    by_cases hb : (semanticBatch root entries).isEmpty
    · simp only [hb, if_true]
    · simp only [hb, if_false, Bool.false_eq_true]
      rw [upsertBatch_idem]

/-- Claim C6, witness: a first episodic pass over a one-line log followed by
a second pass reproduces the same collection, and the semantic pass over a
one-file tree is idempotent. -/
theorem c6_witness :
    consolidate_chat_logs
      (upsertBatch (emptyCollection : Collection String EpiDoc)
        (episodicBatch [{ timestamp := "t0", role := "user", content := "hi" }]))
      (some [some { timestamp := "t0", role := "user", content := "hi" }]) =
      Except.ok (upsertBatch (emptyCollection : Collection String EpiDoc)
        (episodicBatch
          [{ timestamp := "t0", role := "user", content := "hi" }])) ∧
    index_project_files
      (index_project_files emptyCollection ["r"]
        (FSForest.cons (FSEntry.file "a.py" (some ['x'])) FSForest.nil)) ["r"]
      (FSForest.cons (FSEntry.file "a.py" (some ['x'])) FSForest.nil) =
      index_project_files emptyCollection ["r"]
        (FSForest.cons (FSEntry.file "a.py" (some ['x'])) FSForest.nil) :=
  ⟨c6_theorem.1 emptyCollection
      (some [some { timestamp := "t0", role := "user", content := "hi" }]) _ rfl,
   c6_theorem.2 emptyCollection ["r"]
      (FSForest.cons (FSEntry.file "a.py" (some ['x'])) FSForest.nil)⟩

/-! ## Claim C8 -/

/-- Claim C8, counterexample.  The claim states that the live index update
skips files that are empty after trimming whitespace.  `update_live_memory`
has no such check (only the size ceiling and the swallowed read error): a
whitespace-only file under the ceiling is added to `PROJECT_FILE_TREE` and
upserted into the live collection. -/
theorem c8_counterexample :
    (update_live_memory { coll := some emptyCollection, tree := [] } ["ws.txt"]
        (some [Char.ofNat 32])).tree = [["ws.txt"]] ∧
    ((update_live_memory { coll := some emptyCollection, tree := [] } ["ws.txt"]
        (some [Char.ofNat 32])).coll.map (fun f => f ["ws.txt"])) =
      some (some { document := [Char.ofNat 32], filename := "ws.txt" }) ∧
    ([Char.ofNat 32] : Content).all Char.isWhitespace = true := by decide

/-- Claim C8, amended.  The consolidation semantic pass does skip files that
are unreadable, whitespace-only, or over its 50000-character ceiling: every
upserted semantic document is non-blank and within the ceiling.  The live
index update, however, skips only unreadable files and files of 100000 or
more characters; any readable content under that ceiling — including
whitespace-only content — is added to the tree and upserted into the live
collection. -/
theorem c8_amended :
    (∀ (root : List String) (entries : FSForest) (pr : List String × SemDoc),
        pr ∈ semanticBatch root entries →
        pr.2.document.all Char.isWhitespace = false ∧
        pr.2.document.length ≤ 50000) ∧
    (∀ (s : LiveState) (p : List String), update_live_memory s p none = s) ∧
    (∀ (s : LiveState) (p : List String) (c : Content),
        100000 ≤ c.length → update_live_memory s p (some c) = s) ∧
    (∀ (s : LiveState) (coll : Collection (List String) LiveDoc)
        (p : List String) (c : Content),
        s.coll = some coll → c.length < 100000 →
        (update_live_memory s p (some c)).coll =
          some (upsertOne coll p { document := c, filename := baseName p }) ∧
        p ∈ (update_live_memory s p (some c)).tree) := by
  refine ⟨fun root entries pr h => semanticBatch_content h, fun s p => rfl,
    ?_, ?_⟩
  · intro s p c h
    have hdef : update_live_memory s p (some c) =
        if c.length < 100000 then
          { coll :=
              match s.coll with
              | none => none
              | some coll => some (upsertOne coll p ⟨c, baseName p⟩),
            tree := s.tree.insert p }
        else s := rfl
    rw [hdef, if_neg (by omega)]
  · intro s coll p c hc hl
    have hdef : update_live_memory s p (some c) =
        if c.length < 100000 then
          { coll :=
              match s.coll with
              | none => none
              | some coll => some (upsertOne coll p ⟨c, baseName p⟩),
            tree := s.tree.insert p }
        else s := rfl
    rw [hdef, if_pos hl, hc]
    exact ⟨rfl, List.mem_insert_iff.mpr (Or.inl rfl)⟩

/-- Claim C8 amended, witness: a semantic document from a one-file tree is
non-blank; a 100000-character file is skipped by the live update; a one-space
file is upserted into the live collection. -/
theorem c8_witness :
    ((["r", "b.md"],
        { document := ['y'], source := "file_system", path := ["r", "b.md"],
          filename := "b.md" }) :
        List String × SemDoc).2.document.all Char.isWhitespace = false ∧
    update_live_memory { coll := some emptyCollection, tree := [] } ["big.txt"]
      (some (List.replicate 100000 'a')) =
      { coll := some emptyCollection, tree := [] } ∧
    (update_live_memory { coll := some emptyCollection, tree := [] } ["w.txt"]
        (some [Char.ofNat 32])).coll =
      some (upsertOne emptyCollection ["w.txt"]
        { document := [Char.ofNat 32], filename := baseName ["w.txt"] }) :=
  ⟨(c8_amended.1 ["r"]
      (FSForest.cons (FSEntry.file "b.md" (some ['y'])) FSForest.nil) _
      (by decide)).1,
   c8_amended.2.2.1 { coll := some emptyCollection, tree := [] } ["big.txt"]
      (List.replicate 100000 'a')
      (by rw [List.length_replicate]),
   (c8_amended.2.2.2 { coll := some emptyCollection, tree := [] }
      emptyCollection ["w.txt"] [Char.ofNat 32] rfl (by decide)).1⟩

/-! ## Claim C10 -/

/-- Claim C10, confirmed.  The live index and the consolidation semantic
pass use different size ceilings (100000 versus 50000 characters): a file
whose content has between 50001 and 99999 characters (and is non-blank) is
indexed into the live collection and added to the tree by
`update_live_memory`, while `index_project_files` never upserts such a
document, so the file lives in working memory but never enters durable
semantic memory. -/
theorem c10_theorem (c : Content) (h1 : 50000 < c.length)
    (h2 : c.length < 100000) (_h3 : ¬ c.all Char.isWhitespace = true) :
    (∀ (s : LiveState) (coll : Collection (List String) LiveDoc)
        (p : List String), s.coll = some coll →
        p ∈ (update_live_memory s p (some c)).tree ∧
        (update_live_memory s p (some c)).coll =
          some (upsertOne coll p { document := c, filename := baseName p })) ∧
    (∀ (root : List String) (entries : FSForest) (pr : List String × SemDoc),
        pr ∈ semanticBatch root entries → pr.2.document ≠ c) := by
  constructor
  · intro s coll p hc
    have hdef : update_live_memory s p (some c) =
        if c.length < 100000 then
          { coll :=
              match s.coll with
              | none => none
              | some coll => some (upsertOne coll p ⟨c, baseName p⟩),
            tree := s.tree.insert p }
        else s := rfl
    rw [hdef, if_pos h2, hc]
    exact ⟨List.mem_insert_iff.mpr (Or.inl rfl), rfl⟩
  · intro root entries pr hpr hEq
    have hlen := (semanticBatch_content hpr).2
    rw [hEq] at hlen
    omega

/-- Claim C10, witness: a 50001-character file of letters `a` is indexed live
and is never a consolidation semantic document. -/
theorem c10_witness :
    ["f.txt"] ∈ (update_live_memory { coll := some emptyCollection, tree := [] }
        ["f.txt"] (some (List.replicate 50001 'a'))).tree ∧
    (update_live_memory { coll := some emptyCollection, tree := [] } ["f.txt"]
        (some (List.replicate 50001 'a'))).coll =
      some (upsertOne emptyCollection ["f.txt"]
        { document := List.replicate 50001 'a',
          filename := baseName ["f.txt"] }) ∧
    ((["r", "b.py"],
        { document := ['y'], source := "file_system", path := ["r", "b.py"],
          filename := "b.py" }) :
        List String × SemDoc).2.document ≠ List.replicate 50001 'a' := by
  have h := c10_theorem (List.replicate 50001 'a')
    (by rw [List.length_replicate]; omega)
    (by rw [List.length_replicate]; omega)
    (by
      rw [show (50001 : Nat) = 50000 + 1 from rfl, List.replicate_succ,
        List.all_cons]
      have ha : Char.isWhitespace 'a' = false := by decide
      rw [ha, Bool.false_and]
      simp)
  exact ⟨(h.1 { coll := some emptyCollection, tree := [] } emptyCollection
      ["f.txt"] rfl).1,
    (h.1 { coll := some emptyCollection, tree := [] } emptyCollection
      ["f.txt"] rfl).2,
    h.2 ["r"] (FSForest.cons (FSEntry.file "b.py" (some ['y'])) FSForest.nil)
      _ (by decide)⟩

end Apeiron
